import Mathlib

/-!
# Verification of the `ain` template tokenizer and executable-substitution engine

This file embeds, over `List Char` (Go strings are iterated as `[]rune` in the
source, so a rune-list is the faithful carrier), the core of the repository:

* the escaping-aware line lexer `Tokenize` (package `parse`),
* the executable extractor `captureExecutableAndArgs` and the concurrent
  runner `callExecutables` (package `sections`),
* the backend command split/unsplit logic of `CallBackend` (package `call`).

Imperative loops are embedded as fuel-indexed structural recursions: every
iteration of the corresponding Go loop advances its index by at least one, so
fuel `length + 1` is always sufficient and the functions stay kernel-reducible.

Positions inside `currentContent` (the `executableQuoteEnd` index surgery) are
measured in characters; Go measures them in bytes.  The two agree on every
ASCII character, and all inputs evaluated concretely here are ASCII.
-/

namespace Ain

/-! ## Go string helpers -/

/-- `strings.ReplaceAll` (leftmost, non-overlapping), with fuel.  Every step
consumes at least one character of `s`, so fuel `s.length` is sufficient. -/
def stringsReplaceAllAux (pat rep : List Char) : Nat → List Char → List Char
  | 0, s => s
  | _ + 1, [] => []
  | fuel + 1, c :: cs =>
    if pat ≠ [] ∧ pat.isPrefixOf (c :: cs) then
      rep ++ stringsReplaceAllAux pat rep fuel ((c :: cs).drop pat.length)
    else
      c :: stringsReplaceAllAux pat rep fuel cs

/-- Go `strings.ReplaceAll s pat rep`. -/
def stringsReplaceAll (s pat rep : List Char) : List Char :=
  stringsReplaceAllAux pat rep s.length s

/-- Go `strings.TrimSuffix`. -/
def stringsTrimSuffix (s suf : List Char) : List Char :=
  if suf.isSuffixOf s then s.take (s.length - suf.length) else s

/-- Go `unicode.IsSpace`: Latin-1 white space and the Unicode `White_Space`
code points. -/
def goIsSpace (c : Char) : Bool :=
  c = ' ' || c = '\t' || c = '\n' || c = '\u000b' || c = '\u000c' || c = '\r' ||
  c = '\u0085' || c = '\u00a0' || c = '\u1680' ||
  ('\u2000' ≤ c && c ≤ '\u200a') ||
  c = '\u2028' || c = '\u2029' || c = '\u202f' || c = '\u205f' || c = '\u3000'

/-- Go `strings.TrimSpace`: drop `goIsSpace` characters from both ends. -/
def goTrimSpace (s : List Char) : List Char :=
  List.rdropWhile goIsSpace (List.dropWhile goIsSpace s)

/-- Go `strings.Split s sep` for a one-character separator: empty fields are
kept, and the result is never the empty list (`Split` of `""` is `[""]`). -/
def splitOnChar (sep : Char) : List Char → List (List Char)
  | [] => [[]]
  | c :: cs =>
    match splitOnChar sep cs with
    | [] => if c = sep then [[], []] else [[c]]
    | r :: rs => if c = sep then [] :: r :: rs else (c :: r) :: rs

/-! ## The line lexer (package `parse`, `Tokenize`)

Token kinds are the Go integer constants: the source compares them with `>=`,
so they are embedded as `Nat` values, not as an inductive type. -/

def errorToken : Nat := 0
def commentToken : Nat := 1
def textToken : Nat := 2
def executableToken : Nat := 3
def envVarToken : Nat := 4

/-- The `token` struct.  `fatalContent` is the original untokenized text
(Go zero value `""` when a literal omits the field). -/
structure Token where
  tokenType : Nat
  content : List Char := []
  fatalContent : List Char := []
deriving DecidableEq, Repr

def commentPrefix : List Char := "#".toList
def envVarPrefix : List Char := "$\x7b".toList
def executablePrefix : List Char := "$(".toList

/-- `isStartOfToken`: the prefix matches and the preceding text does not end
in an unescaped backtick. -/
def isStartOfToken (tokenTypePrefix prev rest : List Char) : Bool :=
  tokenTypePrefix.isPrefixOf rest &&
    (!(("`".toList).isSuffixOf prev) || ("\\`".toList).isSuffixOf prev)

/-- `unescapeTextContent`: unescape `` `# ``, `` `${ `` and `` `$( `` (the
latter two only when the respective kind is allowed), then turn a trailing
`` \` `` into a backtick when another token follows. -/
def unescapeTextContent (content : List Char) (allowedToken : Nat) (hasNextToken : Bool) : List Char :=
  let content :=
    if envVarToken ≤ allowedToken then
      stringsReplaceAll content ("`".toList ++ envVarPrefix) envVarPrefix
    else content
  let content :=
    if executableToken ≤ allowedToken then
      stringsReplaceAll content ("`".toList ++ executablePrefix) executablePrefix
    else content
  let content := stringsReplaceAll content ("`".toList ++ commentPrefix) commentPrefix
  if hasNextToken ∧ ("\\`".toList).isSuffixOf content then
    stringsTrimSuffix content ("\\`".toList) ++ "`".toList
  else content

/-- The Go rune value `0`: `executableQuoteRune`'s "no quote open" sentinel. -/
def quoteUnset : Char := Char.ofNat 0

/-- The mutable locals of the `Tokenize` loop. -/
structure TokState where
  result : List Token
  currentContent : List Char
  currentTokenType : Nat
  executableQuoteRune : Char
  executableQuoteEnd : Nat
  executableStartIdx : Nat
deriving DecidableEq, Repr

/-- The `switch nextRune` block of the executable state: open a quote (and
unescape `` `) `` in the content accumulated since the last closed quote), or
close the currently open quote when the quote character is not
backslash-escaped. -/
def execQuoteSwitch (prev : List Char) (ch : Char) (s : TokState) : TokState :=
  if ch = '"' ∨ ch = '\'' then
    if s.executableQuoteRune = quoteUnset then
      { s with executableQuoteRune := ch,
               currentContent := s.currentContent.take s.executableQuoteEnd ++
                 stringsReplaceAll (s.currentContent.drop s.executableQuoteEnd)
                   ("`)".toList) (")".toList) }
    else if ¬ ("\\".toList).isSuffixOf prev ∧ s.executableQuoteRune = ch then
      { s with executableQuoteRune := quoteUnset,
               executableQuoteEnd := s.currentContent.length - 1 }
    else s
  else s

/-- One `for` loop of `Tokenize`.  `Sum.inl` is the early `return` taken when
a comment token is emitted; `Sum.inr` is the state at loop exit.  The three
prefix tests of the source are sequential `if`s, but at most one can fire for
a given `rest` (no string starts with two of `${`, `$(`, `#`), so an
`if`/`else if` chain is equivalent. -/
def tokenizeLoop (inputRunes : List Char) (allowedToken : Nat) :
    Nat → Nat → TokState → (List Token × List Char) ⊕ TokState
  | 0, _, s => Sum.inr s
  | fuel + 1, idx, s =>
    if idx < inputRunes.length then
      let rest := inputRunes.drop idx
      let prev := inputRunes.take idx
      let ch := rest.headD ' '
      if s.currentTokenType = textToken then
        let flushed :=
          if 0 < s.currentContent.length then
            s.result ++ [{ tokenType := textToken,
                           content := unescapeTextContent s.currentContent allowedToken true,
                           fatalContent := s.currentContent }]
          else s.result
        if envVarToken ≤ allowedToken ∧ isStartOfToken envVarPrefix prev rest then
          tokenizeLoop inputRunes allowedToken fuel (idx + envVarPrefix.length)
            { s with result := flushed, currentContent := [], currentTokenType := envVarToken }
        else if executableToken ≤ allowedToken ∧ isStartOfToken executablePrefix prev rest then
          tokenizeLoop inputRunes allowedToken fuel (idx + executablePrefix.length)
            { s with result := flushed, currentContent := [],
                     currentTokenType := executableToken, executableStartIdx := idx }
        else if isStartOfToken commentPrefix prev rest then
          Sum.inl (flushed ++ [{ tokenType := commentToken, fatalContent := rest }], [])
        else
          tokenizeLoop inputRunes allowedToken fuel (idx + 1)
            { s with currentContent := s.currentContent ++ [ch] }
      else if s.currentTokenType = envVarToken then
        if isStartOfToken ("\x7d".toList) prev rest then
          let unescapedContent := stringsReplaceAll s.currentContent ("`\x7d".toList) ("\x7d".toList)
          let unescapedContent :=
            if ("\\`".toList).isSuffixOf unescapedContent then
              stringsTrimSuffix unescapedContent ("\\`".toList) ++ "`".toList
            else unescapedContent
          tokenizeLoop inputRunes allowedToken fuel (idx + 1)
            { s with result := s.result ++ [{ tokenType := envVarToken,
                                              content := unescapedContent,
                                              fatalContent := envVarPrefix ++ s.currentContent ++ "\x7d".toList }],
                     currentTokenType := textToken, currentContent := [] }
        else
          tokenizeLoop inputRunes allowedToken fuel (idx + 1)
            { s with currentContent := s.currentContent ++ [ch] }
      else if s.currentTokenType = executableToken then
        let s1 := execQuoteSwitch prev ch s
        if s1.executableQuoteRune = quoteUnset ∧ isStartOfToken (")".toList) prev rest then
          let cc := s1.currentContent.take s1.executableQuoteEnd ++
            stringsReplaceAll (s1.currentContent.drop s1.executableQuoteEnd)
              ("`)".toList) (")".toList)
          let cc :=
            if ("\\`".toList).isSuffixOf cc then
              stringsTrimSuffix cc ("\\`".toList) ++ "`".toList
            else cc
          tokenizeLoop inputRunes allowedToken fuel (idx + 1)
            { s1 with result := s1.result ++ [{ tokenType := executableToken,
                                                content := cc,
                                                fatalContent := (inputRunes.drop s1.executableStartIdx).take (idx + 1 - s1.executableStartIdx) }],
                      currentTokenType := textToken, currentContent := [],
                      executableQuoteEnd := 0 }
        else
          tokenizeLoop inputRunes allowedToken fuel (idx + 1)
            { s1 with currentContent := s1.currentContent ++ [ch] }
      else
        tokenizeLoop inputRunes allowedToken fuel (idx + 1)
          { s with currentContent := s.currentContent ++ [ch] }
    else Sum.inr s

def initTokState : TokState :=
  { result := [], currentContent := [], currentTokenType := textToken,
    executableQuoteRune := quoteUnset, executableQuoteEnd := 0, executableStartIdx := 0 }

/-- `Tokenize(input, allowedToken)`: the loop followed by the end-of-line
handling (unterminated env-var / executable errors, trailing text). -/
def Tokenize (input : List Char) (allowedToken : Nat) : List Token × List Char :=
  match tokenizeLoop input allowedToken (input.length + 1) 0 initTokState with
  | Sum.inl out => out
  | Sum.inr s =>
    if s.currentTokenType = envVarToken then
      (s.result ++ [{ tokenType := errorToken, fatalContent := envVarPrefix ++ s.currentContent }],
       "Missing closing bracket for environment variable: ".toList ++ envVarPrefix ++ s.currentContent)
    else if s.currentTokenType = executableToken then
      (s.result ++ [{ tokenType := errorToken, fatalContent := executablePrefix ++ s.currentContent }],
       if s.executableQuoteRune ≠ quoteUnset then
         "Unterminated quote sequence for executable: ".toList ++ input.drop s.executableStartIdx
       else
         "Missing closing parenthesis for executable: ".toList ++ input.drop s.executableStartIdx)
    else if 0 < s.currentContent.length ∧ s.currentTokenType = textToken then
      (s.result ++ [{ tokenType := textToken,
                      content := unescapeTextContent s.currentContent allowedToken false,
                      fatalContent := s.currentContent }], [])
    else (s.result, [])

/-- The concatenation of the `fatalContent` fields of a token list, in
emission order. -/
def concatFatal (ts : List Token) : List Char :=
  (ts.map Token.fatalContent).flatten

/-- Whether tokenizing `input` ends with the lexer still inside an executable
token (the unterminated-executable `Error` case). -/
def endsInExecutableError (input : List Char) (allowedToken : Nat) : Bool :=
  match tokenizeLoop input allowedToken (input.length + 1) 0 initTokState with
  | Sum.inl _ => false
  | Sum.inr s => s.currentTokenType == executableToken

/-! ## The executable extractor (package `sections`, `captureExecutableAndArgs`)

The extractor receives, per allow-listed section, an ordered sequence of
template lines; section splitting belongs to a collaborator, so the embedding
takes one flattened ordered list of `TemplateLine`s. -/

structure TemplateLine where
  LineContents : List Char
  SourceLineIndex : Nat
deriving DecidableEq, Repr

structure executableAndArgs where
  executable : List Char
  args : List (List Char)
deriving DecidableEq, Repr

/-- One invocation's result slot; Go zero values are empty strings. -/
structure executableOutput where
  output : List Char := []
  fatalMessage : List Char := []
deriving DecidableEq, Repr

/-- `executableExpressionRe.FindAllString(s, -1)` for the pattern
`(m?)\$\([^)]*\)?`: every non-overlapping leftmost occurrence of `$(`,
followed by a maximal run of non-`)` characters and an optional `)`. -/
def findExecutableExpressionsAux : Nat → List Char → List (List Char)
  | 0, _ => []
  | _ + 1, [] => []
  | fuel + 1, c :: cs =>
    if c = '$' then
      match cs with
      | '(' :: cs2 =>
        let inner := cs2.takeWhile (fun d => d ≠ ')')
        match cs2.drop inner.length with
        | ')' :: cs3 =>
          ("$(".toList ++ inner ++ ")".toList) :: findExecutableExpressionsAux fuel cs3
        | _ => ["$(".toList ++ inner]
      | _ => findExecutableExpressionsAux fuel cs
    else findExecutableExpressionsAux fuel cs

def findExecutableExpressions (s : List Char) : List (List Char) :=
  findExecutableExpressionsAux (s.length + 1) s

/-- `executableRe.FindStringSubmatch` for the pattern `\$\(([^)]*)\)`:
`some` holds the first capture group; `none` is Go's `nil` (no match), in
which case the capture slice's length is not 2. -/
def execSubmatchAux : Nat → List Char → Option (List Char)
  | 0, _ => none
  | _ + 1, [] => none
  | fuel + 1, c :: cs =>
    if c = '$' then
      match cs with
      | '(' :: cs2 =>
        let inner := cs2.takeWhile (fun d => d ≠ ')')
        if (cs2.drop inner.length).head? = some ')' then some inner
        else execSubmatchAux fuel cs
      | _ => execSubmatchAux fuel cs
    else execSubmatchAux fuel cs

def execSubmatch (m : List Char) : Option (List Char) :=
  execSubmatchAux (m.length + 1) m

/-- Modelled from the spec: `utils.TokenizeLine` (the Executable Line
Tokenizer, spec §4.3) is not among the files under `src/`.  It splits a string
into whitespace-separated tokens, treats a `'...'` or `"..."` span as one
token (quote characters stripped), lets a backslash escape the immediately
following quote character only, and reports an unterminated quote as an
error. -/
def TokenizeLineAux : Nat → List (List Char) → Option (List Char) → Option Char →
    List Char → Except (List Char) (List (List Char))
  | 0, acc, _, _, _ => Except.ok acc
  | _ + 1, acc, cur, quote, [] =>
    match quote with
    | some _ => Except.error ("Unterminated quote sequence".toList)
    | none =>
      match cur with
      | some t => Except.ok (acc ++ [t])
      | none => Except.ok acc
  | fuel + 1, acc, cur, quote, c :: cs =>
    match quote with
    | some q =>
      if c = '\\' then
        match cs with
        | c2 :: cs2 =>
          if c2 = q then TokenizeLineAux fuel acc (some (cur.getD [] ++ [q])) quote cs2
          else TokenizeLineAux fuel acc (some (cur.getD [] ++ [c])) quote cs
        | [] => Except.error ("Unterminated quote sequence".toList)
      else if c = q then TokenizeLineAux fuel acc cur none cs
      else TokenizeLineAux fuel acc (some (cur.getD [] ++ [c])) quote cs
    | none =>
      if goIsSpace c then
        match cur with
        | some t => TokenizeLineAux fuel (acc ++ [t]) none none cs
        | none => TokenizeLineAux fuel acc none none cs
      else if c = '"' ∨ c = '\'' then TokenizeLineAux fuel acc (some (cur.getD [])) (some c) cs
      else TokenizeLineAux fuel acc (some (cur.getD [] ++ [c])) none cs

def TokenizeLine (input : List Char) : Except (List Char) (List (List Char)) :=
  TokenizeLineAux (input.length + 1) [] none none input

/-- The three outcomes of handling one regex match in
`captureExecutableAndArgs`: an accumulated fatal, an extracted invocation
request, or the runtime panic of indexing `tokenizedExecutableLine[0]` on an
empty token list. -/
inductive MatchOutcome where
  | fatal : List Char → MatchOutcome
  | exec : executableAndArgs → MatchOutcome
  | panic : MatchOutcome
deriving DecidableEq, Repr

def processMatch (m : List Char) : MatchOutcome :=
  match execSubmatch m with
  | none => MatchOutcome.fatal ("Malformed executable".toList)
  | some executableAndArgsStr =>
    if executableAndArgsStr = [] then MatchOutcome.fatal ("Empty executable".toList)
    else
      match TokenizeLine executableAndArgsStr with
      | Except.error e => MatchOutcome.fatal e
      | Except.ok [] => MatchOutcome.panic
      | Except.ok (x :: args) => MatchOutcome.exec { executable := x, args := args }

def captureMatches (sourceLineIndex : Nat) :
    List (List Char) → Option (List (List Char × Nat) × List executableAndArgs)
  | [] => some ([], [])
  | m :: ms =>
    match processMatch m with
    | MatchOutcome.panic => none
    | MatchOutcome.fatal f =>
      (captureMatches sourceLineIndex ms).map fun r => ((f, sourceLineIndex) :: r.1, r.2)
    | MatchOutcome.exec e =>
      (captureMatches sourceLineIndex ms).map fun r => (r.1, e :: r.2)

/-- `captureExecutableAndArgs`: per line, every match of the executable
expression regex is classified; fatals accumulate with their source line
index and scanning continues; `none` is the runtime panic on a
zero-token inner text. -/
def captureExecutableAndArgs :
    List TemplateLine → Option (List (List Char × Nat) × List executableAndArgs)
  | [] => some ([], [])
  | line :: rest => do
    let r ← captureMatches line.SourceLineIndex (findExecutableExpressions line.LineContents)
    let rRest ← captureExecutableAndArgs rest
    pure (r.1 ++ rRest.1, r.2 ++ rRest.2)

/-! ## The backend command renderer (package `call`, `CallBackend`)

Template rendering itself is Go's `text/template` (a collaborator); the
embedding starts from the rendered `templateOutput` string and covers the
trim / split / unsplit / spawn-argument logic of `CallBackend`. -/

/-- Modelled from the spec: `utils.UnsplitLineOnSeparator` is not among the
files under `src/`.  Scan for a token starting with the quote character and
not ending with it, and re-join the following tokens (with the single space
the earlier split consumed) until one ends with the same quote character. -/
def unsplitAux (separator : List Char) :
    Option (List Char) → List (List Char) → List (List Char)
  | none, [] => []
  | some a, [] => [a]
  | none, t :: rest =>
    if separator.isPrefixOf t ∧ ¬ separator.isSuffixOf t then unsplitAux separator (some t) rest
    else t :: unsplitAux separator none rest
  | some a, t :: rest =>
    let joined := a ++ " ".toList ++ t
    if separator.isSuffixOf t then joined :: unsplitAux separator none rest
    else unsplitAux separator (some joined) rest

def UnsplitLineOnSeparator (tokens : List (List Char)) (separator : List Char) :
    List (List Char) :=
  unsplitAux separator none tokens

inductive BackendError where
  | emptyTemplateResult : BackendError
  | emptyBackendCommand : List Char → BackendError
deriving DecidableEq, Repr

/-- What `CallBackend` passes to the spawned process.  `spawnedArgs` is the
`args` slice handed to `exec.CommandContext`; `unsplitArgs` is the value the
two `UnsplitLineOnSeparator` passes compute (the source assigns it to
`backendCommandAndArgsSlice` and never reads it again). -/
structure BackendInvocation where
  command : List Char
  spawnedArgs : List (List Char)
  unsplitArgs : List (List Char)
deriving DecidableEq, Repr

/-- The trim / split / unsplit portion of `CallBackend`, starting from the
rendered template output. -/
def CallBackendSplit (templateOutput : List Char) : Except BackendError BackendInvocation :=
  let templateOutput := goTrimSpace templateOutput
  if templateOutput = [] then Except.error BackendError.emptyTemplateResult
  else
    let backendCommandAndArgsSlice := splitOnChar ' ' templateOutput
    let command := backendCommandAndArgsSlice.headD []
    if command = [] then Except.error (BackendError.emptyBackendCommand templateOutput)
    else
      let args := backendCommandAndArgsSlice.tail
      let merged := UnsplitLineOnSeparator (UnsplitLineOnSeparator args ("\"".toList)) ("'".toList)
      -- the source spawns `exec.CommandContext(..., command, args...)`:
      -- `args`, not the unsplit result
      Except.ok { command := command, spawnedArgs := args, unsplitArgs := merged }

/-- `true` exactly on the `"Empty backend command"` error return. -/
def isEmptyCommandError : Except BackendError BackendInvocation → Bool
  | Except.error (BackendError.emptyBackendCommand _) => true
  | _ => false

/-! ## The concurrent executable runner (package `sections`, `callExecutables`)

Each goroutine's interaction with the operating system is abstracted as an
`ExecBehavior`: what `timeoutCtx.Err()` reports after `cmd.Run()` returns,
what error `cmd.Run()` itself returns, and the captured stdout/stderr.  When
`config.Timeout` is unset the derived context is the caller's own, so
`ctxErr` then models cancellation of the root context. -/

structure Config where
  Timeout : Int
deriving DecidableEq, Repr

/-- Modelled from the spec: `data.TimeoutNotSet`, the "unset" sentinel of the
`{timeoutSeconds: int | unset}` configuration (its defining file is not under
`src/`; no theorem depends on the concrete value). -/
def TimeoutNotSet : Int := -1

structure ExecBehavior where
  ctxErr : Bool
  runErr : Option (List Char)
  stdout : List Char
  stderr : List Char
deriving DecidableEq, Repr

/-- `cmd.String()`: the path followed by each argument, space-separated
(path resolution is modelled as the identity). -/
def cmdString (ex : executableAndArgs) : List Char :=
  ex.executable ++ (ex.args.map (fun a => " ".toList ++ a)).flatten

/-- The body of one goroutine of `callExecutables`: the value written into
the goroutine's own result slot. -/
def runExecutable (config : Config) (ex : executableAndArgs) (b : ExecBehavior) :
    executableOutput :=
  if b.ctxErr then
    { fatalMessage := "Executable ".toList ++ cmdString ex ++ " timed out after ".toList ++
        (toString config.Timeout).toList ++ " seconds".toList }
  else
    match b.runErr with
    | some errMsg =>
      let combinedOutput :=
        if b.stdout ≠ [] ∨ b.stderr ≠ [] then
          "\n".toList ++ goTrimSpace (goTrimSpace b.stdout ++ " ".toList ++ goTrimSpace b.stderr)
        else []
      { fatalMessage := "Executable ".toList ++ cmdString ex ++ " error: ".toList ++
          errMsg ++ combinedOutput }
    | none =>
      if b.stdout = [] then
        { fatalMessage := "Executable ".toList ++ cmdString ex ++
            "\nCommand produced no stdout output".toList }
      else { output := b.stdout }

/-- The tasks in request order: task `i` carries slot index `i` and the
output `runExecutable` produces for request `i`. -/
def canonicalTasks : Nat → List executableOutput → List (Nat × executableOutput)
  | _, [] => []
  | k, v :: vs => (k, v) :: canonicalTasks (k + 1) vs

/-- Executing a list of slot writes over the pre-sized results slice, in
completion order. -/
def runSchedule (init : List executableOutput) (order : List (Nat × executableOutput)) :
    List executableOutput :=
  order.foldl (fun acc t => acc.set t.1 t.2) init

def taskOutputs (config : Config) (executables : List executableAndArgs)
    (behaviors : List ExecBehavior) : List executableOutput :=
  (executables.zip behaviors).map fun rb => runExecutable config rb.1 rb.2

/-- `callExecutables`: `make([]executableOutput, len(executables))` then every
goroutine writes its own slot; `completionOrder` is the order in which the
goroutines happen to finish (any permutation of the canonical tasks), and the
`WaitGroup` join barrier means the caller sees the slice only after the whole
fold. -/
def callExecutables (config : Config) (executables : List executableAndArgs)
    (behaviors : List ExecBehavior) (completionOrder : List (Nat × executableOutput)) :
    List executableOutput :=
  runSchedule (List.replicate executables.length {}) completionOrder

/-! ## Proof scaffolding for the raw-content partition invariant -/

/-- The loop invariant of `tokenizeLoop`: the `fatalContent` strings emitted
so far, together with the pending raw text of the current token, are exactly
the consumed prefix of the input. -/
def TokInv (input : List Char) (idx : Nat) (s : TokState) : Prop :=
  idx ≤ input.length ∧
  ((s.currentTokenType = textToken ∧
      concatFatal s.result ++ s.currentContent = input.take idx) ∨
   (s.currentTokenType = envVarToken ∧
      concatFatal s.result ++ envVarPrefix ++ s.currentContent = input.take idx) ∨
   (s.currentTokenType = executableToken ∧
      concatFatal s.result = input.take s.executableStartIdx ∧
      s.executableStartIdx + executablePrefix.length ≤ idx))

/-- What `tokenizeLoop` guarantees on exit: on an early comment return the
emitted tokens partition the whole line; at end of input the emitted tokens
plus the pending raw text do, except that in the executable state only the
state's kind is recorded (its pending content may already be unescaped). -/
def TokLoopOut (input : List Char) : (List Token × List Char) ⊕ TokState → Prop
  | Sum.inl out => concatFatal out.1 = input
  | Sum.inr s =>
    (s.currentTokenType = textToken ∧ concatFatal s.result ++ s.currentContent = input) ∨
    (s.currentTokenType = envVarToken ∧
      concatFatal s.result ++ envVarPrefix ++ s.currentContent = input) ∨
    s.currentTokenType = executableToken

/-! ## Theorems -/

lemma concatFatal_append (a b : List Token) :
    concatFatal (a ++ b) = concatFatal a ++ concatFatal b := by
  simp [concatFatal]

lemma concatFatal_singleton (t : Token) : concatFatal [t] = t.fatalContent := by
  simp [concatFatal]

lemma take_add_split {α : Type} (l : List α) (m n : Nat) :
    l.take (m + n) = l.take m ++ (l.drop m).take n := by
  induction m generalizing l with
  | zero => simp
  | succ m ih =>
    cases l with
    | nil => simp
    | cons c cs =>
      have h : m + 1 + n = (m + n) + 1 := by omega
      rw [h]
      simp only [List.take_succ_cons, List.drop_succ_cons, List.cons_append]
      rw [← ih]

lemma prefix_take_eq {p l : List Char} (h : p.isPrefixOf l = true) :
    l.take p.length = p := by
  have h2 : p <+: l := by simpa using h
  exact (List.prefix_iff_eq_take.mp h2).symm

lemma take_of_prefix_drop {l p : List Char} {idx : Nat}
    (h : p.isPrefixOf (l.drop idx) = true) :
    l.take (idx + p.length) = l.take idx ++ p := by
  rw [take_add_split, prefix_take_eq h]

lemma idx_add_le_of_prefix_drop {l p : List Char} {idx : Nat}
    (h : p.isPrefixOf (l.drop idx) = true) (hidx : idx ≤ l.length) :
    idx + p.length ≤ l.length := by
  have h2 : p <+: l.drop idx := by simpa using h
  have h3 := h2.length_le
  simp only [List.length_drop] at h3
  omega

lemma take_succ_headD {l : List Char} {idx : Nat} (h : idx < l.length) :
    l.take (idx + 1) = l.take idx ++ [(l.drop idx).headD ' '] := by
  have h1 : (l.drop idx).headD ' ' = l[idx] := by
    rw [List.drop_eq_getElem_cons h]
    rfl
  rw [h1, List.take_succ, List.getElem?_eq_getElem h]
  simp

lemma isStartOfToken_matches {p prev rest : List Char}
    (h : isStartOfToken p prev rest = true) : p.isPrefixOf rest = true := by
  simp only [isStartOfToken, Bool.and_eq_true] at h
  exact h.1

lemma execQuoteSwitch_result (prev : List Char) (ch : Char) (s : TokState) :
    (execQuoteSwitch prev ch s).result = s.result ∧
    (execQuoteSwitch prev ch s).executableStartIdx = s.executableStartIdx ∧
    (execQuoteSwitch prev ch s).currentTokenType = s.currentTokenType := by
  unfold execQuoteSwitch
  split_ifs <;> simp

lemma tokLoopOut_inr {input : List Char} {idx : Nat} {s : TokState}
    (hinv : TokInv input idx s) (hge : input.length ≤ idx) :
    TokLoopOut input (Sum.inr s) := by
  obtain ⟨hle, hcase⟩ := hinv
  have hidx : idx = input.length := by omega
  subst hidx
  rw [List.take_length] at hcase
  rcases hcase with ⟨ht, he⟩ | ⟨ht, he⟩ | ⟨ht, _⟩
  · exact Or.inl ⟨ht, he⟩
  · exact Or.inr (Or.inl ⟨ht, he⟩)
  · exact Or.inr (Or.inr ht)

/-- The master invariant lemma for the `Tokenize` loop. -/
lemma tokenizeLoop_out (input : List Char) (allowedToken : Nat) :
    ∀ fuel idx s, input.length - idx ≤ fuel → TokInv input idx s →
      TokLoopOut input (tokenizeLoop input allowedToken fuel idx s) := by
  intro fuel
  induction fuel with
  | zero =>
    intro idx s hfuel hinv
    exact tokLoopOut_inr hinv (by omega)
  | succ fuel ih =>
    intro idx s hfuel hinv
    by_cases hlt : idx < input.length
    · obtain ⟨hle, hcase⟩ := hinv
      rw [tokenizeLoop]
      simp only [if_pos hlt]
      by_cases htext : s.currentTokenType = textToken
      · simp only [if_pos htext]
        -- the flushed token list always concatenates to result ++ currentContent
        have hflush :
            concatFatal (if 0 < s.currentContent.length then
                s.result ++ [{ tokenType := textToken,
                               content := unescapeTextContent s.currentContent allowedToken true,
                               fatalContent := s.currentContent }]
              else s.result) = concatFatal s.result ++ s.currentContent := by
          by_cases hcc : 0 < s.currentContent.length
          · rw [if_pos hcc, concatFatal_append, concatFatal_singleton]
          · rw [if_neg hcc]
            have : s.currentContent = [] := by
              cases hcc2 : s.currentContent with
              | nil => rfl
              | cons a l => rw [hcc2] at hcc; simp at hcc
            rw [this, List.append_nil]
        have htext' : concatFatal s.result ++ s.currentContent = input.take idx := by
          rcases hcase with ⟨_, he⟩ | ⟨hk, _⟩ | ⟨hk, _⟩
          · exact he
          · rw [htext] at hk; simp [textToken, envVarToken] at hk
          · rw [htext] at hk; simp [textToken, executableToken] at hk
        by_cases henv : envVarToken ≤ allowedToken ∧
            isStartOfToken envVarPrefix (input.take idx) (input.drop idx) = true
        · simp only [if_pos henv]
          apply ih
          · have hp : envVarPrefix.length = 2 := rfl
            omega
          · constructor
            · exact idx_add_le_of_prefix_drop (isStartOfToken_matches henv.2) hle
            · refine Or.inr (Or.inl ⟨rfl, ?_⟩)
              simp only
              rw [hflush, List.append_nil, htext',
                ← take_of_prefix_drop (isStartOfToken_matches henv.2)]
        · simp only [if_neg henv]
          by_cases hexe : executableToken ≤ allowedToken ∧
              isStartOfToken executablePrefix (input.take idx) (input.drop idx) = true
          · simp only [if_pos hexe]
            apply ih
            · have hp : executablePrefix.length = 2 := rfl
              omega
            · constructor
              · exact idx_add_le_of_prefix_drop (isStartOfToken_matches hexe.2) hle
              · refine Or.inr (Or.inr ⟨rfl, ?_, ?_⟩)
                · simp only
                  rw [hflush]
                  exact htext'
                · simp only
                  omega
          · simp only [if_neg hexe]
            by_cases hcom : isStartOfToken commentPrefix (input.take idx) (input.drop idx) = true
            · simp only [if_pos hcom]
              show concatFatal _ = input
              rw [concatFatal_append, concatFatal_singleton, hflush]
              simp only
              rw [htext', List.take_append_drop]
            · simp only [if_neg hcom]
              apply ih
              · omega
              · refine ⟨by omega, Or.inl ⟨htext, ?_⟩⟩
                simp only
                rw [← List.append_assoc, htext', ← take_succ_headD hlt]
      · simp only [if_neg htext]
        by_cases henvst : s.currentTokenType = envVarToken
        · simp only [if_pos henvst]
          have henv' : concatFatal s.result ++ envVarPrefix ++ s.currentContent = input.take idx := by
            rcases hcase with ⟨hk, _⟩ | ⟨_, he⟩ | ⟨hk, _⟩
            · exact absurd hk htext
            · exact he
            · rw [henvst] at hk; simp [envVarToken, executableToken] at hk
          by_cases hcb : isStartOfToken ("\x7d".toList) (input.take idx) (input.drop idx) = true
          · simp only [if_pos hcb]
            apply ih
            · omega
            · refine ⟨by omega, Or.inl ⟨rfl, ?_⟩⟩
              simp only
              rw [concatFatal_append, concatFatal_singleton, List.append_nil]
              have hbrace : input.take (idx + 1) = input.take idx ++ "\x7d".toList := by
                have h1 := take_of_prefix_drop (isStartOfToken_matches hcb)
                have hlen1 : ("\x7d".toList : List Char).length = 1 := rfl
                rw [hlen1] at h1
                exact h1
              rw [hbrace, ← henv']
              simp [List.append_assoc]
          · simp only [if_neg hcb]
            apply ih
            · omega
            · refine ⟨by omega, Or.inr (Or.inl ⟨henvst, ?_⟩)⟩
              simp only
              rw [take_succ_headD hlt, ← henv']
              simp [List.append_assoc]
        · simp only [if_neg henvst]
          have hexest : s.currentTokenType = executableToken := by
            rcases hcase with ⟨hk, _⟩ | ⟨hk, _⟩ | ⟨hk, _⟩
            · exact absurd hk htext
            · exact absurd hk henvst
            · exact hk
          simp only [if_pos hexest]
          have hexe' : concatFatal s.result = input.take s.executableStartIdx ∧
              s.executableStartIdx + executablePrefix.length ≤ idx := by
            rcases hcase with ⟨hk, _⟩ | ⟨hk, _⟩ | ⟨_, he⟩
            · exact absurd hk htext
            · exact absurd hk henvst
            · exact he
          obtain ⟨hq1, hq2, hq3⟩ := execQuoteSwitch_result (input.take idx)
            ((input.drop idx).headD ' ') s
          by_cases hcp : (execQuoteSwitch (input.take idx) ((input.drop idx).headD ' ') s).executableQuoteRune = quoteUnset ∧
              isStartOfToken (")".toList) (input.take idx) (input.drop idx) = true
          · simp only [if_pos hcp]
            apply ih
            · omega
            · refine ⟨by omega, Or.inl ⟨rfl, ?_⟩⟩
              simp only
              rw [concatFatal_append, concatFatal_singleton, List.append_nil]
              simp only
              rw [hq1, hq2, hexe'.1]
              have hparen : input.take (idx + 1) = input.take idx ++ ")".toList := by
                have h1 := take_of_prefix_drop (isStartOfToken_matches hcp.2)
                have hlen1 : (")".toList : List Char).length = 1 := rfl
                rw [hlen1] at h1
                exact h1
              have hsplit : input.take (idx + 1) =
                  input.take s.executableStartIdx ++
                    (input.drop s.executableStartIdx).take (idx + 1 - s.executableStartIdx) := by
                have h2 : s.executableStartIdx + (idx + 1 - s.executableStartIdx) = idx + 1 := by
                  have h3 := hexe'.2
                  have hp : executablePrefix.length = 2 := rfl
                  omega
                rw [← take_add_split, h2]
              rw [← hsplit]
          · simp only [if_neg hcp]
            apply ih
            · omega
            · refine ⟨by omega, Or.inr (Or.inr ⟨?_, ?_, ?_⟩)⟩
              · dsimp only
                rw [hq3]
                exact hexest
              · dsimp only
                rw [hq1, hq2]
                exact hexe'.1
              · dsimp only
                rw [hq2]
                have h3 := hexe'.2
                have hp : executablePrefix.length = 2 := rfl
                omega
    · rw [tokenizeLoop]
      simp only [if_neg hlt]
      exact tokLoopOut_inr hinv (by omega)

/-- `TokInv` holds at the start of the loop. -/
lemma tokInv_init (input : List Char) : TokInv input 0 initTokState := by
  refine ⟨Nat.zero_le _, Or.inl ⟨rfl, ?_⟩⟩
  simp [concatFatal, initTokState]

/-- C1 (amended): for every input line and allowed-token ceiling, when the
tokenization does not end in an unterminated-executable Error token,
concatenating the `fatalContent` (rawContent) fields of the tokens returned
by `Tokenize`, in emission order, reproduces the original line exactly; this
includes lines ending in an unterminated-environment-variable Error token. -/
theorem C1_rawContent_partition (input : List Char) (allowedToken : Nat)
    (h : endsInExecutableError input allowedToken = false) :
    concatFatal (Tokenize input allowedToken).1 = input := by
  have hout := tokenizeLoop_out input allowedToken (input.length + 1) 0 initTokState
    (by omega) (tokInv_init input)
  unfold Tokenize
  unfold endsInExecutableError at h
  cases hres : tokenizeLoop input allowedToken (input.length + 1) 0 initTokState with
  | inl out =>
    rw [hres] at hout
    exact hout
  | inr s =>
    rw [hres] at hout h
    dsimp only at h ⊢
    have hne : s.currentTokenType ≠ executableToken := by simpa using h
    rcases hout with ⟨ht, he⟩ | ⟨ht, he⟩ | ht
    · -- text state at end of line
      rw [ht]
      rw [if_neg (by decide : ¬(textToken = envVarToken)),
        if_neg (by decide : ¬(textToken = executableToken))]
      by_cases hcc : 0 < s.currentContent.length
      · rw [if_pos ⟨hcc, rfl⟩]
        simp only [concatFatal_append, concatFatal_singleton]
        exact he
      · rw [if_neg (fun hand => hcc hand.1)]
        have hnil : s.currentContent = [] := by
          cases hcc2 : s.currentContent with
          | nil => rfl
          | cons a l => rw [hcc2] at hcc; simp at hcc
        rw [hnil, List.append_nil] at he
        exact he
    · -- env-var state at end of line: the Error token still carries the raw text
      rw [ht, if_pos rfl]
      simp only [concatFatal_append, concatFatal_singleton]
      rw [← List.append_assoc]
      exact he
    · exact absurd ht hne

/-- C1 counterexample: for the line `` $(a`)" `` (an unterminated executable
in which a quote opens after an escaped closing parenthesis) the Error
token's `fatalContent` has already lost the escaping backtick, so the
concatenation does not reproduce the line. -/
theorem C1_rawContent_partition_cex :
    concatFatal (Tokenize ("$(a`)\"".toList) envVarToken).1 ≠ "$(a`)\"".toList := by
  decide

theorem C1_rawContent_partition_witness :
    endsInExecutableError ("a`$\x7bb\x7d #x".toList) envVarToken = false ∧
    concatFatal (Tokenize ("a`$\x7bb\x7d #x".toList) envVarToken).1 = "a`$\x7bb\x7d #x".toList :=
  ⟨by decide, C1_rawContent_partition ("a`$\x7bb\x7d #x".toList) envVarToken (by decide)⟩

/-- C8: an unescaped backtick immediately before a special prefix suppresses
token recognition (`isStartOfToken` is false whenever the preceding text ends
in a backtick not itself escaped by a backslash), and tokenizing `` a`${b} ``
with env-var tokens allowed yields a single Text token whose content `a${b}`
has the backtick removed while the prefix characters remain — no EnvVar
token is produced. -/
theorem C8_escaped_prefix_suppressed :
    (∀ p prev rest : List Char, ("`".toList).isSuffixOf prev = true →
        ("\\`".toList).isSuffixOf prev = false → isStartOfToken p prev rest = false) ∧
    Tokenize ("a`$\x7bb\x7d".toList) envVarToken =
      ([{ tokenType := textToken, content := "a$\x7bb\x7d".toList,
          fatalContent := "a`$\x7bb\x7d".toList }], []) := by
  constructor
  · intro p prev rest h1 h2
    unfold isStartOfToken
    rw [h1, h2]
    simp
  · decide

theorem C8_escaped_prefix_suppressed_witness :
    isStartOfToken envVarPrefix ("a`".toList) ("$\x7bb\x7d".toList) = false ∧
    Tokenize ("a`$\x7bb\x7d".toList) envVarToken =
      ([{ tokenType := textToken, content := "a$\x7bb\x7d".toList,
          fatalContent := "a`$\x7bb\x7d".toList }], []) :=
  ⟨C8_escaped_prefix_suppressed.1 envVarPrefix ("a`".toList) ("$\x7bb\x7d".toList)
      (by decide) (by decide),
   C8_escaped_prefix_suppressed.2⟩

lemma splitOnChar_ne_nil (sep : Char) (l : List Char) : splitOnChar sep l ≠ [] := by
  induction l with
  | nil => simp [splitOnChar]
  | cons c cs ih =>
    simp only [splitOnChar]
    cases h : splitOnChar sep cs with
    | nil => split_ifs <;> simp
    | cons r rs => split_ifs <;> simp

lemma dropWhile_head_false {p : Char → Bool} :
    ∀ {l : List Char} {c : Char} {cs : List Char}, l.dropWhile p = c :: cs → p c = false := by
  intro l
  induction l with
  | nil => intro c cs h; simp [List.dropWhile] at h
  | cons a t ih =>
    intro c cs h
    rw [List.dropWhile_cons] at h
    by_cases hp : p a = true
    · rw [if_pos hp] at h
      exact ih h
    · rw [if_neg hp] at h
      injection h with h1 _
      rw [← h1]
      simpa using hp

/-- The first character surviving `strings.TrimSpace` is not white space. -/
lemma goTrimSpace_head_false {l : List Char} {c : Char} {cs : List Char}
    (h : goTrimSpace l = c :: cs) : goIsSpace c = false := by
  unfold goTrimSpace at h
  have hpre : List.rdropWhile goIsSpace (List.dropWhile goIsSpace l) <+:
      List.dropWhile goIsSpace l := List.rdropWhile_prefix _ _
  rw [h] at hpre
  obtain ⟨t, ht⟩ := hpre
  have hdw : List.dropWhile goIsSpace l = c :: (cs ++ t) := by
    rw [← ht]
    simp
  exact dropWhile_head_false hdw

/-- C9: the `"Empty backend command"` branch of `CallBackend` is unreachable:
whatever the rendered template output, after trimming a non-empty result its
first character is not a space, so the first field of the space-split is
non-empty and `CallBackendSplit` never returns that error. -/
theorem C9_empty_backend_command_unreachable (templateOutput : List Char) :
    isEmptyCommandError (CallBackendSplit templateOutput) = false := by
  unfold CallBackendSplit
  cases h : goTrimSpace templateOutput with
  | nil => simp [isEmptyCommandError]
  | cons c cs =>
    have hc : goIsSpace c = false := goTrimSpace_head_false h
    have hcs : ¬ c = ' ' := by
      intro he
      rw [he] at hc
      simp [goIsSpace] at hc
    rw [if_neg (by simp)]
    obtain ⟨r, rs, hsplit⟩ : ∃ r rs, splitOnChar ' ' cs = r :: rs := by
      cases hx : splitOnChar ' ' cs with
      | nil => exact absurd hx (splitOnChar_ne_nil ' ' cs)
      | cons r rs => exact ⟨r, rs, rfl⟩
    have hsplit2 : splitOnChar ' ' (c :: cs) = (c :: r) :: rs := by
      simp only [splitOnChar, hsplit]
      rw [if_neg hcs]
    rw [hsplit2]
    simp only [List.headD_cons]
    rw [if_neg (by simp)]
    simp [isEmptyCommandError]

/-- C2: evaluating `CallBackendSplit` on the rendered command
`http --ignore-stdin x.com "a b"` shows that the quoted span `"a b"` is split
across two of the arguments actually handed to the spawned process
(`spawnedArgs`), while the computed-but-discarded unsplit pass would have
re-merged it into one argument. -/
theorem C2_quoted_args_not_remerged :
    CallBackendSplit ("http --ignore-stdin x.com \"a b\"".toList) =
      Except.ok { command := "http".toList,
                  spawnedArgs := ["--ignore-stdin".toList, "x.com".toList,
                                  "\"a".toList, "b\"".toList],
                  unsplitArgs := ["--ignore-stdin".toList, "x.com".toList,
                                  "\"a b\"".toList] } := rfl

/-- C4: on the line `$( )` the captured inner text is empty after trimming
but not empty verbatim, so the extractor does not record an
`"Empty executable"` fatal: it hands the blank text to the line tokenizer,
gets zero tokens, and indexing element 0 of the empty slice panics (`none`).
On `$()` — inner text empty verbatim — the fatal is recorded as the claim
says. -/
theorem C4_empty_executable_not_trimmed :
    captureExecutableAndArgs [{ LineContents := "$( )".toList, SourceLineIndex := 1 }] = none ∧
    captureExecutableAndArgs [{ LineContents := "$()".toList, SourceLineIndex := 1 }] =
      some ([("Empty executable".toList, 1)], []) := by decide

/-! ### The concurrent runner: slot writes and schedules -/

lemma runSchedule_length (order : List (Nat × executableOutput))
    (init : List executableOutput) : (runSchedule init order).length = init.length := by
  induction order generalizing init with
  | nil => rfl
  | cons t ts ih =>
    simp only [runSchedule, List.foldl_cons]
    have h := ih (init.set t.1 t.2)
    simpa [runSchedule, List.length_set] using h

lemma canonicalTasks_fst_ge :
    ∀ (vs : List executableOutput) (k : Nat) (x : Nat × executableOutput),
      x ∈ canonicalTasks k vs → k ≤ x.1 := by
  intro vs
  induction vs with
  | nil => intro k x h; simp [canonicalTasks] at h
  | cons v vs ih =>
    intro k x h
    simp only [canonicalTasks, List.mem_cons] at h
    rcases h with h | h
    · rw [h]
    · have := ih (k + 1) x h
      omega

lemma canonicalTasks_inj :
    ∀ (vs : List executableOutput) (k : Nat) (x y : Nat × executableOutput),
      x ∈ canonicalTasks k vs → y ∈ canonicalTasks k vs → x.1 = y.1 → x = y := by
  intro vs
  induction vs with
  | nil => intro k x y hx; simp [canonicalTasks] at hx
  | cons v vs ih =>
    intro k x y hx hy hxy
    simp only [canonicalTasks, List.mem_cons] at hx hy
    rcases hx with hx | hx <;> rcases hy with hy | hy
    · rw [hx, hy]
    · exfalso
      have h2 := canonicalTasks_fst_ge vs (k + 1) y hy
      rw [hx] at hxy
      simp at hxy
      omega
    · exfalso
      have h2 := canonicalTasks_fst_ge vs (k + 1) x hx
      rw [hy] at hxy
      simp at hxy
      omega
    · exact ih (k + 1) x y hx hy hxy

lemma take_succ_set {α : Type} :
    ∀ (arr : List α) (k : Nat) (v : α), k < arr.length →
      (arr.set k v).take (k + 1) = arr.take k ++ [v] := by
  intro arr
  induction arr with
  | nil => intro k v h; simp at h
  | cons a as ih =>
    intro k v h
    cases k with
    | zero => simp
    | succ k =>
      simp only [List.set_cons_succ, List.take_succ_cons, List.cons_append]
      rw [ih k v (by simpa using h)]

lemma foldl_set_canonical :
    ∀ (vs arr : List executableOutput) (k : Nat), arr.length = k + vs.length →
      List.foldl (fun acc t => acc.set t.1 t.2) arr (canonicalTasks k vs) =
        arr.take k ++ vs := by
  intro vs
  induction vs with
  | nil =>
    intro arr k h
    simp only [canonicalTasks, List.foldl_nil, List.append_nil]
    simp only [List.length_nil] at h
    have hk : k = arr.length := by omega
    rw [hk, List.take_length]
  | cons v vs ih =>
    intro arr k h
    simp only [List.length_cons] at h
    simp only [canonicalTasks, List.foldl_cons]
    rw [ih (arr.set k v) (k + 1) (by simp only [List.length_set]; omega)]
    rw [take_succ_set arr k v (by omega)]
    simp

/-- Any completion order of the per-slot writes produces the canonical,
request-ordered output list: the fold is invariant under permutation because
distinct tasks write distinct slots. -/
lemma runSchedule_perm (vs init : List executableOutput)
    (order : List (Nat × executableOutput))
    (hperm : order.Perm (canonicalTasks 0 vs))
    (hlen : init.length = vs.length) :
    runSchedule init order = vs := by
  unfold runSchedule
  have hcomm : ∀ x ∈ order, ∀ y ∈ order, ∀ z : List executableOutput,
      (z.set x.1 x.2).set y.1 y.2 = (z.set y.1 y.2).set x.1 x.2 := by
    intro x hx y hy z
    by_cases hxy : x.1 = y.1
    · have hx2 : x ∈ canonicalTasks 0 vs := hperm.mem_iff.mp hx
      have hy2 : y ∈ canonicalTasks 0 vs := hperm.mem_iff.mp hy
      rw [canonicalTasks_inj vs 0 x y hx2 hy2 hxy]
    · exact List.set_comm x.2 y.2 z hxy
  have hfe : List.foldl (fun acc (t : Nat × executableOutput) => acc.set t.1 t.2) init order =
      List.foldl (fun acc t => acc.set t.1 t.2) init (canonicalTasks 0 vs) :=
    hperm.foldl_eq' hcomm init
  rw [hfe]
  have hfold := foldl_set_canonical vs init 0 (by omega)
  simpa using hfold

lemma taskOutputs_length (config : Config) (executables : List executableAndArgs)
    (behaviors : List ExecBehavior) (hlen : behaviors.length = executables.length) :
    (taskOutputs config executables behaviors).length = executables.length := by
  simp [taskOutputs, hlen]

/-- C5: for every request list, behavior assignment and completion order of
the goroutines, the runner's result list equals the request-indexed list of
per-request outcomes: it has the requests' length, result `i` is the outcome
of request `i` alone, and the completion order (any permutation of the task
writes) never affects any slot. -/
theorem C5_results_aligned (config : Config) (executables : List executableAndArgs)
    (behaviors : List ExecBehavior) (completionOrder : List (Nat × executableOutput))
    (hlen : behaviors.length = executables.length)
    (hperm : completionOrder.Perm
      (canonicalTasks 0 (taskOutputs config executables behaviors))) :
    callExecutables config executables behaviors completionOrder =
      taskOutputs config executables behaviors ∧
    (callExecutables config executables behaviors completionOrder).length =
      executables.length ∧
    ∀ i (h1 : i < executables.length) (h2 : i < behaviors.length)
      (h3 : i < (callExecutables config executables behaviors completionOrder).length),
      (callExecutables config executables behaviors completionOrder).get ⟨i, h3⟩ =
        runExecutable config (executables.get ⟨i, h1⟩) (behaviors.get ⟨i, h2⟩) := by
  have hmain : callExecutables config executables behaviors completionOrder =
      taskOutputs config executables behaviors := by
    unfold callExecutables
    apply runSchedule_perm _ _ _ hperm
    rw [taskOutputs_length config executables behaviors hlen]
    simp
  refine ⟨hmain, ?_, ?_⟩
  · rw [hmain]
    exact taskOutputs_length config executables behaviors hlen
  · intro i h1 h2 h3
    have hget := List.get_of_eq hmain ⟨i, h3⟩
    rw [hget]
    simp [taskOutputs]

theorem C5_results_aligned_witness :
    callExecutables { Timeout := 5 }
        [{ executable := "true".toList, args := [] },
         { executable := "false".toList, args := [] }]
        [{ ctxErr := false, runErr := none, stdout := "ok".toList, stderr := [] },
         { ctxErr := false, runErr := some ("exit status 1".toList), stdout := [],
           stderr := [] }]
        (canonicalTasks 0 (taskOutputs { Timeout := 5 }
          [{ executable := "true".toList, args := [] },
           { executable := "false".toList, args := [] }]
          [{ ctxErr := false, runErr := none, stdout := "ok".toList, stderr := [] },
           { ctxErr := false, runErr := some ("exit status 1".toList), stdout := [],
             stderr := [] }])).reverse =
      taskOutputs { Timeout := 5 }
        [{ executable := "true".toList, args := [] },
         { executable := "false".toList, args := [] }]
        [{ ctxErr := false, runErr := none, stdout := "ok".toList, stderr := [] },
         { ctxErr := false, runErr := some ("exit status 1".toList), stdout := [],
           stderr := [] }] :=
  (C5_results_aligned _ _ _ _ (by decide) (by decide)).1

/-- Each single-request outcome has exactly one non-empty field. -/
lemma runExecutable_exactly_one (config : Config) (ex : executableAndArgs)
    (b : ExecBehavior) :
    ((runExecutable config ex b).output = [] ∧ (runExecutable config ex b).fatalMessage ≠ []) ∨
    ((runExecutable config ex b).output ≠ [] ∧ (runExecutable config ex b).fatalMessage = []) := by
  have hexec : ("Executable ".toList : List Char) ≠ [] := by decide
  unfold runExecutable
  by_cases h1 : b.ctxErr = true
  · simp [h1, hexec]
  · simp only [Bool.not_eq_true] at h1
    rw [h1]
    cases hb : b.runErr with
    | some e => simp [hexec]
    | none =>
      by_cases h3 : b.stdout = []
      · simp [h3, hexec]
      · simp [h3]

/-- C7: after the runner completes, every entry of the result list has
exactly one non-empty field: the output on success, or the fatal message on
timeout, non-zero exit, or empty standard output. -/
theorem C7_output_xor_fatal (config : Config) (executables : List executableAndArgs)
    (behaviors : List ExecBehavior) (completionOrder : List (Nat × executableOutput))
    (hlen : behaviors.length = executables.length)
    (hperm : completionOrder.Perm
      (canonicalTasks 0 (taskOutputs config executables behaviors))) :
    ∀ o ∈ callExecutables config executables behaviors completionOrder,
      (o.output = [] ∧ o.fatalMessage ≠ []) ∨ (o.output ≠ [] ∧ o.fatalMessage = []) := by
  intro o ho
  have hmain : callExecutables config executables behaviors completionOrder =
      taskOutputs config executables behaviors := by
    unfold callExecutables
    apply runSchedule_perm _ _ _ hperm
    rw [taskOutputs_length config executables behaviors hlen]
    simp
  rw [hmain] at ho
  simp only [taskOutputs, List.mem_map] at ho
  obtain ⟨rb, _, hrb⟩ := ho
  rw [← hrb]
  exact runExecutable_exactly_one config rb.1 rb.2

theorem C7_output_xor_fatal_witness :
    (({ output := "ok".toList, fatalMessage := [] } : executableOutput).output = [] ∧
      ({ output := "ok".toList, fatalMessage := [] } : executableOutput).fatalMessage ≠ []) ∨
    (({ output := "ok".toList, fatalMessage := [] } : executableOutput).output ≠ [] ∧
      ({ output := "ok".toList, fatalMessage := [] } : executableOutput).fatalMessage = []) :=
  C7_output_xor_fatal { Timeout := 5 }
    [{ executable := "true".toList, args := [] }]
    [{ ctxErr := false, runErr := none, stdout := "ok".toList, stderr := [] }]
    (canonicalTasks 0 (taskOutputs { Timeout := 5 }
      [{ executable := "true".toList, args := [] }]
      [{ ctxErr := false, runErr := none, stdout := "ok".toList, stderr := [] }]))
    (by decide) (List.Perm.refl _)
    { output := "ok".toList, fatalMessage := [] } (by decide)

/-- C3 (amended): on success — no context error, no command error, non-empty
standard output — the runner records the standard output verbatim (it is not
trimmed) and leaves the fatal message empty. -/
theorem C3_success_records_stdout_verbatim (config : Config) (ex : executableAndArgs)
    (b : ExecBehavior) (h1 : b.ctxErr = false) (h2 : b.runErr = none)
    (h3 : b.stdout ≠ []) :
    runExecutable config ex b = { output := b.stdout, fatalMessage := [] } := by
  unfold runExecutable
  rw [h1, h2]
  simp [h3]

/-- C3 counterexample: a successful request whose stdout is `" hi \n"` is
recorded verbatim, and that recorded output differs from the trimmed stdout —
so the runner does not record the *trimmed* standard output. -/
theorem C3_success_records_stdout_verbatim_cex :
    (runExecutable { Timeout := 5 } { executable := "echo".toList, args := [] }
        { ctxErr := false, runErr := none, stdout := " hi \n".toList, stderr := [] }).output =
      " hi \n".toList ∧
    (runExecutable { Timeout := 5 } { executable := "echo".toList, args := [] }
        { ctxErr := false, runErr := none, stdout := " hi \n".toList, stderr := [] }).output ≠
      goTrimSpace (" hi \n".toList) := by decide

theorem C3_success_records_stdout_verbatim_witness :
    runExecutable { Timeout := 5 } { executable := "echo".toList, args := [] }
        { ctxErr := false, runErr := none, stdout := "ok".toList, stderr := [] } =
      { output := "ok".toList, fatalMessage := [] } :=
  C3_success_records_stdout_verbatim _ _ _ rfl rfl (by decide)

/-- C6: on success with empty standard output the runner records the
"Command produced no stdout output" fatal and leaves the output field
empty. -/
theorem C6_empty_stdout_is_fatal (config : Config) (ex : executableAndArgs)
    (b : ExecBehavior) (h1 : b.ctxErr = false) (h2 : b.runErr = none)
    (h3 : b.stdout = []) :
    runExecutable config ex b =
      { output := [],
        fatalMessage := "Executable ".toList ++ cmdString ex ++
          "\nCommand produced no stdout output".toList } := by
  unfold runExecutable
  rw [h1, h2]
  simp [h3]

theorem C6_empty_stdout_is_fatal_witness :
    runExecutable { Timeout := 5 } { executable := "true".toList, args := [] }
        { ctxErr := false, runErr := none, stdout := [], stderr := [] } =
      { output := [],
        fatalMessage := "Executable ".toList ++
          cmdString { executable := "true".toList, args := [] } ++
          "\nCommand produced no stdout output".toList } :=
  C6_empty_stdout_is_fatal _ _ _ rfl rfl rfl

/-- C10: whenever the execution context reports an error after the
subprocess ran — including cancellation of the caller's root context when no
timeout is configured, since the derived context is then the root context
itself — the runner records the "timed out after N seconds" fatal citing
`config.Timeout`, regardless of the command's own error or captured output,
and the output field stays empty. -/
theorem C10_ctx_err_reported_as_timeout (config : Config) (ex : executableAndArgs)
    (b : ExecBehavior) (h : b.ctxErr = true) :
    runExecutable config ex b =
      { output := [],
        fatalMessage := "Executable ".toList ++ cmdString ex ++
          " timed out after ".toList ++ (toString config.Timeout).toList ++
          " seconds".toList } := by
  unfold runExecutable
  rw [h]
  simp

theorem C10_ctx_err_reported_as_timeout_witness :
    runExecutable { Timeout := TimeoutNotSet } { executable := "x".toList, args := [] }
        { ctxErr := true, runErr := some ("boom".toList), stdout := "out".toList,
          stderr := "err".toList } =
      { output := [],
        fatalMessage := "Executable ".toList ++
          cmdString { executable := "x".toList, args := [] } ++
          " timed out after ".toList ++ (toString TimeoutNotSet).toList ++
          " seconds".toList } :=
  C10_ctx_err_reported_as_timeout _ _ _ rfl

example :
    Tokenize ("plain text".toList) envVarToken =
      ([{ tokenType := textToken, content := "plain text".toList,
          fatalContent := "plain text".toList }], []) := by decide

example :
    Tokenize ("$\x7bHOME\x7d".toList) envVarToken =
      ([{ tokenType := envVarToken, content := "HOME".toList,
          fatalContent := "$\x7bHOME\x7d".toList }], []) := by decide

example :
    Tokenize ("a`$\x7bb\x7d".toList) envVarToken =
      ([{ tokenType := textToken, content := "a$\x7bb\x7d".toList,
          fatalContent := "a`$\x7bb\x7d".toList }], []) := by decide

example :
    (Tokenize ("$(echo `) hi)".toList) envVarToken).1 =
      [{ tokenType := executableToken, content := "echo ) hi".toList,
         fatalContent := "$(echo `) hi)".toList }] := by decide

end Ain
